import Mathlib

/-!
Verification of the uv `pip download` / `pip wheel` materialization pipeline
(`crates/uv/src/commands/pip/download.rs` and `crates/uv/src/commands/pip/wheel.rs`).

A prepared artifact's on-disk form is embedded as the enumeration produced by
the `WalkDir` traversal rooted at the artifact path: a list of items, each
either an I/O error or a filesystem node given by its path relative to the
walk root (a list of name components, `[]` for the root itself) together with
`none` for a directory or `some bytes` for a file's contents.  Paths are
UTF-8; byte-wise and scalar-value lexicographic comparison agree on the ASCII
wheel filenames this pipeline handles, so Rust's `str::cmp` ordering is
embedded as Lean's `String` order.  Terminal colouring is identity on the
text (the snapshots in `tests/it/` show the uncoloured lines), so lines are
plain strings.
-/

namespace UvPip

/-- One filesystem node yielded by the directory walk: its path relative to
the walk root (`[]` is the root itself), and `none` for a directory or
`some bytes` for a file's contents. -/
structure FsEnt where
  path : List String
  data : Option (List Nat)
deriving DecidableEq, Repr

/-- A walk item is either a node or a walk error (`walkdir::Error`,
rendered as its message). -/
abbrev WalkItem := Except String FsEnt

/-- Compression method recorded on a ZIP entry. -/
inductive CompressionMethod where
  | stored
  | deflated
deriving DecidableEq, Repr

/-- A ZIP entry as written by `zip::ZipWriter`: a directory entry (name
carries the trailing separator) or a file entry with its (uncompressed)
contents; both record the compression method and the optional Unix
permission bits of the options they were written with. -/
inductive ZipEntry where
  | dirE (name : String) (method : CompressionMethod) (unixPerms : Option Nat)
  | fileE (name : String) (contents : List Nat) (method : CompressionMethod) (unixPerms : Option Nat)
deriving DecidableEq, Repr

/-- The name stored in the ZIP central directory for an entry. -/
def ZipEntry.name : ZipEntry → String
  | .dirE n _ _ => n
  | .fileE n _ _ _ => n

/-- The Unix permission bits stored on an entry. -/
def ZipEntry.unixPerms : ZipEntry → Option Nat
  | .dirE _ _ p => p
  | .fileE _ _ _ p => p

/-- The compression method stored on an entry. -/
def ZipEntry.method : ZipEntry → CompressionMethod
  | .dirE _ m _ => m
  | .fileE _ _ m _ => m

/-- Replace the Unix permission bits of an entry. -/
def ZipEntry.withPerms (p : Option Nat) : ZipEntry → ZipEntry
  | .dirE n m _ => .dirE n m p
  | .fileE n c m _ => .fileE n c m p

/-- Join char-level path components with the `/` separator: the string form
of a relative path, as produced by `Path::to_str` on the walk's
`strip_prefix` result. -/
def joinSlash : List (List Char) → List Char
  | [] => []
  | [c] => c
  | c :: cs => c ++ '/' :: joinSlash cs

/-- Render a relative path (list of components) as the separator-joined
string used for ZIP entry names. -/
def renderPath (p : List String) : String :=
  ⟨joinSlash (p.map String.data)⟩

/-- Split a char list on the `/` separator (inverse of `joinSlash` on
separator-free components); the result is always nonempty. -/
def splitSlash : List Char → List (List Char)
  | [] => [[]]
  | c :: cs =>
    if c = '/' then [] :: splitSlash cs
    else
      match splitSlash cs with
      | [] => [[c]]
      | p :: ps => (c :: p) :: ps

/-- The entry `zip_directory` (download.rs:479-497) writes for one walk
node: the root (empty relative path) is skipped; a directory becomes an
entry whose name carries a trailing separator; a file becomes a
DEFLATE-compressed entry holding the file's bytes.  No Unix permission bits
are set. -/
def zipDirEntry (e : FsEnt) : Option ZipEntry :=
  if e.path.isEmpty then none
  else match e.data with
    | none => some (.dirE (renderPath e.path ++ "/") .deflated none)
    | some c => some (.fileE (renderPath e.path) c .deflated none)

/-- Embedding of `zip_directory` (download.rs:466-502).  WalkDir items that
are errors are dropped by `filter_map(|e| e.ok())`; the remaining nodes are
written as entries. -/
def zip_directory (walk : List WalkItem) : List ZipEntry :=
  (walk.filterMap Except.toOption).filterMap zipDirEntry

/-- The entry `pack_wheel` (wheel.rs:535-556) writes for one walk node:
the root is skipped; files first (`path.is_file()`), then directories; the
options carry DEFLATE compression and Unix permissions `0o644`.  The
directory name is passed without a separator and `zip::ZipWriter::add_directory`
appends the trailing `/` itself. -/
def packWheelEntry (e : FsEnt) : Option ZipEntry :=
  if e.path.isEmpty then none
  else match e.data with
    | some c => some (.fileE (renderPath e.path) c .deflated (some 0o644))
    | none => some (.dirE (renderPath e.path ++ "/") .deflated (some 0o644))

/-- Embedding of `pack_wheel` (wheel.rs:527-560).  Unlike `zip_directory`,
each walk item is unwrapped with `?`, so the first walk error aborts the
pack and is propagated. -/
def pack_wheel : List WalkItem → Except String (List ZipEntry)
  | [] => .ok []
  | .error msg :: _ => .error msg
  | .ok e :: rest => (pack_wheel rest).map fun es => (packWheelEntry e).toList ++ es

/-- Whether a path component is a valid filesystem name: nonempty and free
of the separator. -/
def validComponentB (s : String) : Bool :=
  decide (s ≠ "") && decide ('/' ∉ s.data)

/-- Whether a walk node has a valid relative path. -/
def FsEnt.validB (e : FsEnt) : Bool :=
  e.path.all validComponentB

/-- Whether a walk item is an error-free node with a valid path. -/
def WalkItem.validB : WalkItem → Bool
  | .ok e => e.validB
  | .error _ => false

/-- Whether a walk is error-free with valid paths throughout. -/
def validWalkB (walk : List WalkItem) : Bool :=
  walk.all WalkItem.validB

/-- Modelled from the spec and the ZIP format: extracting one entry
recreates the node at the path its name denotes (a trailing separator marks
a directory entry; the name splits on the separator into components). -/
def unpackEntry : ZipEntry → FsEnt
  | .dirE name _ _ => ⟨(splitSlash name.data.dropLast).map fun l => ⟨l⟩, none⟩
  | .fileE name c _ _ => ⟨(splitSlash name.data).map fun l => ⟨l⟩, some c⟩

/-- Modelled from the spec: unpacking a ZIP into a fresh directory and
walking the result enumerates the new root followed by one node per
entry. -/
def unpackZip (entries : List ZipEntry) : List WalkItem :=
  .ok ⟨[], none⟩ :: entries.map fun e => .ok (unpackEntry e)

/-! ### Destination directory and prepared artifacts -/

/-- What a write to the destination directory deposits under a filename:
either a ZIP archive (described by its entries) or raw bytes copied
verbatim. -/
inductive DestContent where
  | zipArchive (entries : List ZipEntry)
  | rawBytes (contents : List Nat)
deriving DecidableEq, Repr

/-- The output directory: filenames mapped to their contents, in creation
order. -/
abbrev DestDir := List (String × DestContent)

/-- `Path::exists` for a destination filename. -/
def DestDir.hasFile (d : DestDir) (name : String) : Bool :=
  (d.lookup name).isSome

/-- `File::create` followed by a full write: truncates and replaces an
existing file of that name, otherwise creates a new one. -/
def DestDir.write (d : DestDir) (name : String) (c : DestContent) : DestDir :=
  if (d.lookup name).isSome then
    d.map fun p => if p.1 = name then (name, c) else p
  else
    d ++ [(name, c)]

/-- A prepared artifact as consumed by materialization: its canonical wheel
filename, the cache path it was prepared at, and the walk of that path. -/
structure PreparedArtifact where
  filename : String
  path : String
  walk : List WalkItem
deriving Repr

/-- Modelled from the spec: the download-mode write rule of section 4.6 —
an unpacked directory is packed into a ZIP container before writing; an
artifact that is already a single file (its walk is just a root file) is
copied verbatim. -/
def downloadWriteSpec (w : PreparedArtifact) : DestContent :=
  match w.walk with
  | [Except.ok ⟨[], some c⟩] => .rawBytes c
  | walk => .zipArchive (zip_directory walk)

/-! ### Download-mode materialization (download.rs:380-463) -/

/-- The state threaded through the download copy loop
(download.rs:425-446): the destination directory, the lines written to the
printer so far, and `downloaded_count`. -/
structure DownloadLoopState where
  dest : DestDir
  lines : List String
  downloadedCount : Nat
deriving DecidableEq, Repr

/-- download.rs:443: the line written for a downloaded item (one leading
space where the status glyph is padded). -/
def downloadItemLine (filename : String) : String :=
  " Downloaded " ++ filename

/-- download.rs:433-438: the line written for a skipped item. -/
def skipItemLine (filename : String) : String :=
  " Skipping " ++ filename ++ " (already exists)"

/-- download.rs:450-460: the summary line, singular `package` exactly when
the count is 1; the elapsed time is abstracted as a string. -/
def downloadSummaryLine (count : Nat) (elapsed : String) : String :=
  "Downloaded " ++ toString count ++ " package" ++ (if count = 1 then "" else "s")
    ++ " in " ++ elapsed

/-- One iteration of the download copy loop (download.rs:426-446): if the
destination filename exists, report `Skipping` and do nothing; otherwise
zip the prepared path to the destination, report `Downloaded`, and count
it. -/
def downloadStep (st : DownloadLoopState) (w : PreparedArtifact) : DownloadLoopState :=
  if st.dest.hasFile w.filename then
    { st with lines := st.lines ++ [skipItemLine w.filename] }
  else
    { dest := st.dest.write w.filename (.zipArchive (zip_directory w.walk)),
      lines := st.lines ++ [downloadItemLine w.filename],
      downloadedCount := st.downloadedCount + 1 }

/-- download.rs:422: `prepared.sort_by(|a, b| a.filename().cmp(b.filename()))`
(a stable sort by filename). -/
def sortPrepared (l : List PreparedArtifact) : List PreparedArtifact :=
  l.mergeSort fun a b => decide (a.filename ≤ b.filename)

/-- The download materialization phase (download.rs:421-460): sort the
prepared distributions by filename, run the copy loop over an initial
destination directory, then append the summary line. -/
def pip_download_materialize (dest0 : DestDir) (prepared : List PreparedArtifact)
    (elapsed : String) : DownloadLoopState :=
  let st := (sortPrepared prepared).foldl downloadStep ⟨dest0, [], 0⟩
  { st with lines := st.lines ++ [downloadSummaryLine st.downloadedCount elapsed] }

/-- A distribution chosen by the resolver, reduced to its identity. -/
structure Dist where
  name : String
deriving DecidableEq, Repr

/-- `uv_distribution_types::ResolvedDist`: an installable distribution or an
already-installed one. -/
inductive ResolvedDist where
  | installable (dist : Dist)
  | installed (dist : Dist)
deriving DecidableEq, Repr

/-- download.rs:389-395: keep only the installable distributions. -/
def extract_distributions (resolution : List ResolvedDist) : List Dist :=
  resolution.filterMap fun r =>
    match r with
    | .installable d => some d
    | .installed _ => none

/-- `ExitStatus` of the command. -/
inductive ExitStatus where
  | success
  | failure
deriving DecidableEq, Repr

/-- The observable outcome of the post-resolution part of `pip_download`. -/
structure DownloadRunResult where
  status : ExitStatus
  lines : List String
  dest : DestDir
  dirCreated : Bool
  preparedDists : List PreparedArtifact
deriving Repr

/-- The post-resolution part of `pip_download` (download.rs:382-462): the
destination directory is created, the installable distributions are
extracted; when none remain, `No packages to download` is written and the
command succeeds without preparing anything; otherwise the distributions
are prepared (the preparer is abstracted as a function) and materialized.
`preparedDists` records the artifacts handed to materialization (`[]` when
preparation never ran). -/
def pip_download_run (resolution : List ResolvedDist)
    (prepare : List Dist → List PreparedArtifact)
    (dest0 : DestDir) (elapsed : String) : DownloadRunResult :=
  let dists := extract_distributions resolution
  if dists.isEmpty then
    { status := .success, lines := ["No packages to download"], dest := dest0,
      dirCreated := true, preparedDists := [] }
  else
    let prepared := prepare dists
    let st := pip_download_materialize dest0 prepared elapsed
    { status := .success, lines := st.lines, dest := st.dest,
      dirCreated := true, preparedDists := prepared }

/-! ### Build-mode materialization (wheel.rs:473-511) -/

/-- A packing failure as surfaced by `pip_wheel`: the raw walk error, or an
error wrapped with an `anyhow` context message. -/
inductive PackError where
  | walk (msg : String)
  | context (msg : String) (inner : PackError)
deriving DecidableEq, Repr

/-- wheel.rs:481-487: the context message wrapped around a packing failure,
naming the source archive path and the destination path. -/
def wheelContextMsg (src dst : String) : String :=
  "Failed to pack wheel from " ++ src ++ " to " ++ dst

/-- The state threaded through the wheel packing loop (wheel.rs:474-490):
the output directory and the collected `built_wheels` filenames. -/
structure WheelLoopState where
  dest : DestDir
  builtWheels : List String
deriving DecidableEq, Repr

/-- `Path::join` of the wheel directory and a filename. -/
def destPathOf (wheelDir filename : String) : String :=
  wheelDir ++ "/" ++ filename

/-- One iteration of the wheel packing loop (wheel.rs:475-490): always pack
the extracted archive directory into the output directory (overwriting any
existing file of that name); a packing failure is wrapped with the source
and destination paths and aborts the loop. -/
def buildStep (wheelDir : String) (st : WheelLoopState) (w : PreparedArtifact) :
    Except PackError WheelLoopState :=
  match pack_wheel w.walk with
  | .error msg =>
    .error (.context (wheelContextMsg w.path (destPathOf wheelDir w.filename)) (.walk msg))
  | .ok entries =>
    .ok { dest := st.dest.write w.filename (.zipArchive entries),
          builtWheels := st.builtWheels ++ [w.filename] }

/-- wheel.rs:496-506: the build summary line, singular `wheel` exactly when
the count is 1. -/
def wheelSummaryLine (count : Nat) (elapsed : String) : String :=
  "Successfully built " ++ toString count ++ " wheel" ++ (if count = 1 then "" else "s")
    ++ " in " ++ elapsed

/-- wheel.rs:509-511: the per-wheel line. -/
def builtWheelLine (filename : String) : String :=
  " - " ++ filename

/-- wheel.rs:493: `built_wheels.sort()`. -/
def sortNames (l : List String) : List String :=
  l.mergeSort fun a b => decide (a ≤ b)

/-- The build-mode materialization phase (wheel.rs:473-511): pack every
prepared wheel into the output directory (no skip check), sort the built
filenames, then report the summary line followed by one line per built
wheel.  The first packing failure aborts the run with the wrapped error. -/
def pip_wheel_materialize (wheelDir : String) (dest0 : DestDir)
    (wheels : List PreparedArtifact) (elapsed : String) :
    Except PackError (DestDir × List String) :=
  (wheels.foldlM (buildStep wheelDir) ⟨dest0, []⟩).map fun st =>
    let sorted := sortNames st.builtWheels
    (st.dest, wheelSummaryLine sorted.length elapsed :: sorted.map builtWheelLine)

/-- The filenames of the per-item report lines in download mode: the
sorted prepared list's filenames, in report order. -/
def downloadReportedFilenames (prepared : List PreparedArtifact) : List String :=
  (sortPrepared prepared).map PreparedArtifact.filename

/-- The filenames of the per-wheel report lines in build mode: the sorted
built filenames. -/
def wheelReportedFilenames (wheels : List PreparedArtifact) : List String :=
  sortNames (wheels.map PreparedArtifact.filename)

/-! ### Hash policy (download.rs:192-207, 277-290; wheel.rs:231-246, 316-329) -/

/-- The global hash-checking mode (`uv_configuration::HashCheckingMode`). -/
inductive HashCheckingMode where
  | require
  | verify
deriving DecidableEq, Repr

/-- A requirement together with its declared hashes, as fed to
`HashStrategy::from_requirements`. -/
structure HashEntry where
  name : String
  hashes : List String
deriving DecidableEq, Repr

/-- The hash strategy (`uv_types::HashStrategy`): either `None` or a
strategy built from declared requirement hashes under a checking mode. -/
inductive HashStrategy where
  | none
  | fromRequirements (entries : List HashEntry) (mode : HashCheckingMode)
deriving DecidableEq, Repr

/-- Modelled from the spec: `uv_types::HashStrategy::from_requirements`
(crate not under src/) builds the strategy once from the declared
requirement and constraint hashes under the given checking mode; markers
only exclude inapplicable requirements beforehand and are omitted here. -/
def HashStrategy.from_requirements (requirements constraints : List HashEntry)
    (mode : HashCheckingMode) : HashStrategy :=
  .fromRequirements (requirements ++ constraints) mode

/-- The checking mode a strategy applies, if any. -/
def HashStrategy.mode : HashStrategy → Option HashCheckingMode
  | .none => Option.none
  | .fromRequirements _ m => some m

/-- Modelled from the spec: whether a package is subject to hash checking
under a strategy.  Under `HashStrategy::None` no package is hash-checked;
under a built strategy a package is (potentially) checked. -/
def HashStrategy.hashChecked : HashStrategy → String → Bool
  | .none, _ => false
  | .fromRequirements _ _, _ => true

/-- The run-level hasher (download.rs:193-207 and identically
wheel.rs:232-246): when a global mode is given, build the strategy from the
requirement and override hashes plus the constraint hashes under that mode;
otherwise `HashStrategy::None`. -/
def runHasher (hashChecking : Option HashCheckingMode)
    (requirements overrides constraints : List HashEntry) : HashStrategy :=
  match hashChecking with
  | some mode => HashStrategy.from_requirements (requirements ++ overrides) constraints mode
  | Option.none => .none

/-- The build-constraint hasher (download.rs:279-290 and identically
wheel.rs:318-329): when any global mode is given, the build constraints are
checked under `Verify` (never `Require`); otherwise `HashStrategy::None`. -/
def buildHasher (hashChecking : Option HashCheckingMode)
    (buildConstraints : List HashEntry) : HashStrategy :=
  match hashChecking with
  | some _ => HashStrategy.from_requirements [] buildConstraints .verify
  | Option.none => .none

/-! ### Requirement aggregation (wheel.rs:137-168) -/

/-- A bare requirement (`uv_distribution_types::Requirement`), reduced to
the fields the aggregation moves around. -/
structure Requirement where
  name : String
  spec : String
deriving DecidableEq, Repr

/-- `uv_distribution_types::NameRequirementSpecification`. -/
structure NameRequirementSpecification where
  requirement : Requirement
  hashes : List String
deriving DecidableEq, Repr

/-- `NameRequirementSpecification::from(requirement)`. -/
def NameRequirementSpecification.ofRequirement (r : Requirement) :
    NameRequirementSpecification :=
  ⟨r, []⟩

/-- `uv_distribution_types::UnresolvedRequirementSpecification`. -/
structure UnresolvedRequirementSpecification where
  requirement : Requirement
  hashes : List String
deriving DecidableEq, Repr

/-- `UnresolvedRequirementSpecification::from(requirement)`. -/
def UnresolvedRequirementSpecification.ofRequirement (r : Requirement) :
    UnresolvedRequirementSpecification :=
  ⟨r, []⟩

/-- wheel.rs:137-145: the merged constraints are the explicitly read
constraints chained with the workspace constraints. -/
def wheelConstraints (explicit : List NameRequirementSpecification)
    (fromWorkspace : List Requirement) : List NameRequirementSpecification :=
  explicit ++ fromWorkspace.map NameRequirementSpecification.ofRequirement

/-- wheel.rs:147-155: the merged overrides are the explicitly read
overrides chained with the workspace overrides. -/
def wheelOverrides (explicit : List UnresolvedRequirementSpecification)
    (fromWorkspace : List Requirement) : List UnresolvedRequirementSpecification :=
  explicit ++ fromWorkspace.map UnresolvedRequirementSpecification.ofRequirement

/-- wheel.rs:157-168: the merged build constraints are the constraints read
from the build-constraint sources chained with the workspace build
constraints. -/
def wheelBuildConstraints (explicit : List NameRequirementSpecification)
    (fromWorkspace : List Requirement) : List NameRequirementSpecification :=
  explicit ++ fromWorkspace.map NameRequirementSpecification.ofRequirement

/-! ## Theorems -/

/-! ### C3: hash strategy selection -/

/-- C3: for every run, when the global hash-checking mode is absent the
hash strategy is `None` and no package is hash-checked; when the global
mode is present (whether `Require` or `Verify`), the strategy applied to
build constraints always carries mode `Verify`, never `Require`, so
build-time dependencies are never rejected merely for lacking a declared
hash. -/
theorem hash_policy_mode_selection
    (hc : Option HashCheckingMode)
    (reqs ovs cons bcs : List HashEntry) :
    (hc = Option.none →
      runHasher hc reqs ovs cons = HashStrategy.none ∧
      buildHasher hc bcs = HashStrategy.none ∧
      ∀ pkg, (runHasher hc reqs ovs cons).hashChecked pkg = false ∧
        (buildHasher hc bcs).hashChecked pkg = false) ∧
    (∀ m, hc = some m →
      (buildHasher hc bcs).mode = some HashCheckingMode.verify ∧
      (buildHasher hc bcs).mode ≠ some HashCheckingMode.require) := by
  constructor
  · rintro rfl
    exact ⟨rfl, rfl, fun pkg => ⟨rfl, rfl⟩⟩
  · rintro m rfl
    exact ⟨rfl, by simp [buildHasher, HashStrategy.from_requirements, HashStrategy.mode]⟩

/-- Witness for C3, at a concrete `Require` mode and a concrete absent
mode. -/
theorem hash_policy_mode_selection_witness :
    (buildHasher (some HashCheckingMode.require) [⟨"setuptools", []⟩]).mode
        = some HashCheckingMode.verify ∧
    runHasher Option.none [⟨"iniconfig", ["sha256:x"]⟩] [] [] = HashStrategy.none :=
  ⟨((hash_policy_mode_selection (some HashCheckingMode.require) [] [] []
      [⟨"setuptools", []⟩]).2 HashCheckingMode.require rfl).1,
   ((hash_policy_mode_selection Option.none [⟨"iniconfig", ["sha256:x"]⟩] [] [] []).1 rfl).1⟩

/-! ### C9: requirement aggregation -/

/-- C9: in each of the merged categories (constraints, overrides, build
constraints), workspace-sourced entries appear strictly after all
explicitly supplied entries of the same category, and no deduplication is
performed: every input entry, duplicate or not, appears in the output with
its multiplicity preserved. -/
theorem wheel_aggregation_order_no_dedup
    (cons : List NameRequirementSpecification) (consWs : List Requirement)
    (ovs : List UnresolvedRequirementSpecification) (ovsWs : List Requirement)
    (bcons : List NameRequirementSpecification) (bconsWs : List Requirement) :
    ((wheelConstraints cons consWs).take cons.length = cons ∧
      (wheelConstraints cons consWs).drop cons.length
        = consWs.map NameRequirementSpecification.ofRequirement ∧
      ∀ x, (wheelConstraints cons consWs).count x
        = cons.count x + (consWs.map NameRequirementSpecification.ofRequirement).count x) ∧
    ((wheelOverrides ovs ovsWs).take ovs.length = ovs ∧
      (wheelOverrides ovs ovsWs).drop ovs.length
        = ovsWs.map UnresolvedRequirementSpecification.ofRequirement ∧
      ∀ x, (wheelOverrides ovs ovsWs).count x
        = ovs.count x + (ovsWs.map UnresolvedRequirementSpecification.ofRequirement).count x) ∧
    ((wheelBuildConstraints bcons bconsWs).take bcons.length = bcons ∧
      (wheelBuildConstraints bcons bconsWs).drop bcons.length
        = bconsWs.map NameRequirementSpecification.ofRequirement ∧
      ∀ x, (wheelBuildConstraints bcons bconsWs).count x
        = bcons.count x
          + (bconsWs.map NameRequirementSpecification.ofRequirement).count x) := by
  refine ⟨⟨?_, ?_, ?_⟩, ⟨?_, ?_, ?_⟩, ⟨?_, ?_, ?_⟩⟩ <;>
    simp [wheelConstraints, wheelOverrides, wheelBuildConstraints,
      List.take_left, List.drop_left, List.count_append]

/-! ### C10: empty installable set short-circuits -/

/-- C10: if the resolution graph contains no installable distribution
(every resolved distribution is already installed, or the graph is empty),
the download operation writes `No packages to download`, returns success,
performs no preparation and writes nothing into the destination directory,
though the directory itself is still created. -/
theorem no_installable_distributions_short_circuit
    (resolution : List ResolvedDist) (prepare : List Dist → List PreparedArtifact)
    (dest0 : DestDir) (elapsed : String)
    (h : ∀ r ∈ resolution, ∃ d, r = ResolvedDist.installed d) :
    pip_download_run resolution prepare dest0 elapsed =
      { status := .success, lines := ["No packages to download"], dest := dest0,
        dirCreated := true, preparedDists := [] } := by
  have hd : extract_distributions resolution = [] := by
    rw [extract_distributions, List.filterMap_eq_nil_iff]
    intro r hr
    obtain ⟨d, rfl⟩ := h r hr
    rfl
  simp [pip_download_run, hd]

/-- Witness for C10: a resolution containing one already-installed
distribution. -/
theorem no_installable_distributions_short_circuit_witness :
    pip_download_run [ResolvedDist.installed ⟨"iniconfig"⟩] (fun _ => []) [] "0.01s" =
      { status := .success, lines := ["No packages to download"], dest := [],
        dirCreated := true, preparedDists := [] } :=
  no_installable_distributions_short_circuit [ResolvedDist.installed ⟨"iniconfig"⟩]
    (fun _ => []) [] "0.01s"
    (by
      intro r hr
      rw [List.mem_singleton] at hr
      exact ⟨⟨"iniconfig"⟩, hr⟩)

/-! ### Destination-directory write lemmas -/

theorem lookup_map_update (d : DestDir) (n : String) (c : DestContent)
    (h : (d.lookup n).isSome = true) :
    (d.map fun p => if p.1 = n then (n, c) else p).lookup n = some c := by
  induction d with
  | nil => simp at h
  | cons p d ih =>
    obtain ⟨k, v⟩ := p
    by_cases hk : k = n
    · subst hk
      show ((if k = k then (k, c) else (k, v)) :: _).lookup k = some c
      simp [List.lookup_cons]
    · have hne : (n == k) = false := by
        simp only [beq_eq_false_iff_ne, ne_eq]
        exact fun e => hk e.symm
      show ((if k = n then (n, c) else (k, v)) :: _).lookup n = some c
      rw [if_neg hk, List.lookup_cons]
      rw [List.lookup_cons] at h
      simp only [hne] at h ⊢
      exact ih h

theorem lookup_map_update_ne (d : DestDir) (n f : String) (c : DestContent)
    (hf : f ≠ n) :
    (d.map fun p => if p.1 = n then (n, c) else p).lookup f = d.lookup f := by
  induction d with
  | nil => simp
  | cons p d ih =>
    obtain ⟨k, v⟩ := p
    by_cases hk : k = n
    · subst hk
      have hne : (f == k) = false := by
        simp only [beq_eq_false_iff_ne, ne_eq]
        exact hf
      show ((if k = k then (k, c) else (k, v)) :: _).lookup f = _
      rw [if_pos rfl, List.lookup_cons, List.lookup_cons]
      simp only [hne]
      exact ih
    · show ((if k = n then (n, c) else (k, v)) :: _).lookup f = _
      rw [if_neg hk, List.lookup_cons, List.lookup_cons]
      cases hfk : f == k with
      | true => rfl
      | false => exact ih

theorem DestDir.lookup_write_self (d : DestDir) (n : String) (c : DestContent) :
    (d.write n c).lookup n = some c := by
  rw [DestDir.write]
  split
  case isTrue h => exact lookup_map_update d n c h
  case isFalse h =>
    rw [List.lookup_append]
    have : d.lookup n = none := by
      cases hd : d.lookup n with
      | none => rfl
      | some v => rw [hd] at h; simp at h
    rw [this]
    simp [List.lookup_cons]

theorem DestDir.lookup_write_ne (d : DestDir) (n f : String) (c : DestContent)
    (hf : f ≠ n) :
    (d.write n c).lookup f = d.lookup f := by
  rw [DestDir.write]
  split
  · exact lookup_map_update_ne d n f c hf
  · rw [List.lookup_append]
    have hne : (f == n) = false := by
      simp only [beq_eq_false_iff_ne, ne_eq]
      exact hf
    simp [List.lookup_cons, hne]

theorem DestDir.hasFile_write_self (d : DestDir) (n : String) (c : DestContent) :
    (d.write n c).hasFile n = true := by
  rw [DestDir.hasFile, DestDir.lookup_write_self]
  rfl

theorem DestDir.hasFile_write_mono (d : DestDir) (n f : String) (c : DestContent)
    (h : d.hasFile f = true) : (d.write n c).hasFile f = true := by
  by_cases hf : f = n
  · subst hf
    exact DestDir.hasFile_write_self d f c
  · rw [DestDir.hasFile, DestDir.lookup_write_ne d n f c hf]
    exact h

/-! ### Download loop invariants -/

theorem downloadStep_hasFile (st : DownloadLoopState) (w : PreparedArtifact) :
    (downloadStep st w).dest.hasFile w.filename = true := by
  rw [downloadStep]
  split
  case isTrue h => exact h
  case isFalse h => exact DestDir.hasFile_write_self st.dest w.filename _

theorem downloadStep_hasFile_mono (st : DownloadLoopState) (w : PreparedArtifact)
    (f : String) (h : st.dest.hasFile f = true) :
    (downloadStep st w).dest.hasFile f = true := by
  rw [downloadStep]
  split
  · exact h
  · exact DestDir.hasFile_write_mono st.dest w.filename f _ h

theorem downloadLoop_hasFile_mono (l : List PreparedArtifact) :
    ∀ st : DownloadLoopState, ∀ f : String, st.dest.hasFile f = true →
      (l.foldl downloadStep st).dest.hasFile f = true := by
  induction l with
  | nil => intro st f h; exact h
  | cons a l ih =>
    intro st f h
    exact ih (downloadStep st a) f (downloadStep_hasFile_mono st a f h)

theorem downloadLoop_hasFile_all (l : List PreparedArtifact) :
    ∀ st : DownloadLoopState, ∀ w ∈ l,
      (l.foldl downloadStep st).dest.hasFile w.filename = true := by
  induction l with
  | nil => intro st w hw; cases hw
  | cons a l ih =>
    intro st w hw
    rcases List.mem_cons.mp hw with rfl | hw
    · exact downloadLoop_hasFile_mono l (downloadStep st w) w.filename
        (downloadStep_hasFile st w)
    · exact ih (downloadStep st a) w hw

theorem downloadLoop_all_present (l : List PreparedArtifact) :
    ∀ st : DownloadLoopState, (∀ w ∈ l, st.dest.hasFile w.filename = true) →
      l.foldl downloadStep st =
        { st with lines := st.lines ++ l.map fun w => skipItemLine w.filename } := by
  induction l with
  | nil => intro st h; simp
  | cons a l ih =>
    intro st h
    have hstep : downloadStep st a =
        { st with lines := st.lines ++ [skipItemLine a.filename] } := by
      rw [downloadStep, if_pos (h a (List.mem_cons_self a l))]
    rw [List.foldl_cons, hstep,
      ih { st with lines := st.lines ++ [skipItemLine a.filename] }
        (fun w hw => h w (List.mem_cons_of_mem a hw))]
    simp [List.append_assoc]

/-! ### C2: idempotence of the download flow -/

/-- C2: for every prepared artifact whose canonical destination filename
already exists in the output directory, no write is performed, a
`Skipping` line is reported, and the artifact does not count toward the
downloaded total; hence a second run of the download flow with identical
inputs leaves the output directory unchanged, reports only skipped
outcomes, and reports a downloaded count of zero. -/
theorem download_idempotent
    (prepared : List PreparedArtifact) (dest0 : DestDir) (e1 e2 : String) :
    (∀ st w, st.dest.hasFile w.filename = true →
      downloadStep st w = { st with lines := st.lines ++ [skipItemLine w.filename] }) ∧
    (let r1 := pip_download_materialize dest0 prepared e1
     let r2 := pip_download_materialize r1.dest prepared e2
     r2.dest = r1.dest ∧ r2.downloadedCount = 0 ∧
     r2.lines = ((sortPrepared prepared).map fun w => skipItemLine w.filename)
        ++ [downloadSummaryLine 0 e2]) := by
  constructor
  · intro st w h
    rw [downloadStep, if_pos h]
  · have hdall : ∀ w ∈ sortPrepared prepared,
        ((sortPrepared prepared).foldl downloadStep
          ⟨dest0, [], 0⟩).dest.hasFile w.filename = true :=
      downloadLoop_hasFile_all (sortPrepared prepared) ⟨dest0, [], 0⟩
    have h2 := downloadLoop_all_present (sortPrepared prepared)
      ⟨((sortPrepared prepared).foldl downloadStep ⟨dest0, [], 0⟩).dest, [], 0⟩ hdall
    refine ⟨?_, ?_, ?_⟩ <;>
      simp only [pip_download_materialize, h2, List.nil_append]

/-- Witness for C2: a destination that already holds `a.whl` is untouched
and a `Skipping` line is reported. -/
theorem download_idempotent_witness :
    downloadStep ⟨[("a.whl", DestContent.rawBytes [])], [], 0⟩ ⟨"a.whl", "cache/a", []⟩
      = { dest := [("a.whl", DestContent.rawBytes [])],
          lines := [skipItemLine "a.whl"], downloadedCount := 0 } :=
  (download_idempotent [] [] "0.01s" "0.02s").1
    ⟨[("a.whl", DestContent.rawBytes [])], [], 0⟩ ⟨"a.whl", "cache/a", []⟩ (by decide)

/-! ### Sorting lemmas -/

theorem sortNames_sorted (n : List String) : List.Sorted (· ≤ ·) (sortNames n) :=
  List.sorted_mergeSort' n

theorem sortNames_perm_invariant (n np : List String) (h : n.Perm np) :
    sortNames n = sortNames np :=
  List.eq_of_perm_of_sorted
    (((List.mergeSort_perm n _).trans h).trans (List.mergeSort_perm np _).symm)
    (sortNames_sorted n) (sortNames_sorted np)

theorem downloadReportedFilenames_eq (l : List PreparedArtifact) :
    downloadReportedFilenames l = sortNames (l.map PreparedArtifact.filename) := by
  rw [downloadReportedFilenames, sortPrepared, sortNames]
  exact List.map_mergeSort fun a _ b _ => rfl

/-! ### Report-line shape lemmas -/

theorem downloadLoop_lines_shape (l : List PreparedArtifact) :
    ∀ st : DownloadLoopState, ∃ tail,
      (l.foldl downloadStep st).lines = st.lines ++ tail ∧
      List.Forall₂ (fun w line => line = downloadItemLine w.filename ∨
        line = skipItemLine w.filename) l tail := by
  induction l with
  | nil => intro st; exact ⟨[], by simp, List.Forall₂.nil⟩
  | cons a l ih =>
    intro st
    obtain ⟨tail, hlines, hall⟩ := ih (downloadStep st a)
    have hx : ∃ x, (downloadStep st a).lines = st.lines ++ [x] ∧
        (x = downloadItemLine a.filename ∨ x = skipItemLine a.filename) := by
      rw [downloadStep]
      split
      · exact ⟨skipItemLine a.filename, rfl, Or.inr rfl⟩
      · exact ⟨downloadItemLine a.filename, rfl, Or.inl rfl⟩
    obtain ⟨x, hxl, hxor⟩ := hx
    refine ⟨x :: tail, ?_, List.Forall₂.cons hxor hall⟩
    rw [List.foldl_cons, hlines, hxl, List.append_assoc, List.singleton_append]

theorem wheelLoop_built (wheelDir : String) (l : List PreparedArtifact) :
    ∀ st0 st : WheelLoopState, l.foldlM (buildStep wheelDir) st0 = Except.ok st →
      st.builtWheels = st0.builtWheels ++ l.map PreparedArtifact.filename := by
  induction l with
  | nil =>
    intro st0 st h
    cases h
    simp
  | cons a l ih =>
    intro st0 st h
    rw [List.foldlM_cons] at h
    cases hb : buildStep wheelDir st0 a with
    | error e =>
      rw [hb] at h
      cases h
    | ok st1 =>
      rw [hb] at h
      have hrest : l.foldlM (buildStep wheelDir) st1 = Except.ok st := h
      have h1 : st1.builtWheels = st0.builtWheels ++ [a.filename] := by
        rw [buildStep] at hb
        cases hp : pack_wheel a.walk with
        | error m => rw [hp] at hb; cases hb
        | ok es =>
          rw [hp] at hb
          cases hb
          rfl
      rw [ih st1 st hrest, h1, List.append_assoc, List.singleton_append, List.map_cons]

/-! ### C6: deterministic sorted reporting -/

/-- C6: for every set of prepared artifacts and every order in which
preparation completes, the reported list of filenames is the same
lexicographically sorted list — in download mode the per-item lines follow
the filename-sorted artifact list one-for-one, and in build mode the
per-wheel lines are the sorted filenames; both reported filename lists are
invariant under permutation of the prepared input. -/
theorem reporting_sorted_deterministic
    (l lp : List PreparedArtifact) (hperm : l.Perm lp)
    (d : DestDir) (e wd : String) :
    downloadReportedFilenames l = downloadReportedFilenames lp ∧
    List.Sorted (· ≤ ·) (downloadReportedFilenames l) ∧
    List.Forall₂ (fun w line => line = downloadItemLine w.filename ∨
      line = skipItemLine w.filename)
      (sortPrepared l) ((pip_download_materialize d l e).lines.dropLast) ∧
    wheelReportedFilenames l = wheelReportedFilenames lp ∧
    List.Sorted (· ≤ ·) (wheelReportedFilenames l) ∧
    ∀ res, pip_wheel_materialize wd d l e = Except.ok res →
      res.2.tail = (wheelReportedFilenames l).map builtWheelLine := by
  refine ⟨?_, ?_, ?_, ?_, ?_, ?_⟩
  · rw [downloadReportedFilenames_eq, downloadReportedFilenames_eq]
    exact sortNames_perm_invariant _ _ (hperm.map _)
  · rw [downloadReportedFilenames_eq]
    exact sortNames_sorted _
  · obtain ⟨tail, hlines, hall⟩ := downloadLoop_lines_shape (sortPrepared l) ⟨d, [], 0⟩
    have : (pip_download_materialize d l e).lines.dropLast = tail := by
      show (((sortPrepared l).foldl downloadStep ⟨d, [], 0⟩).lines ++ _).dropLast = tail
      rw [hlines, List.nil_append, List.dropLast_concat]
    rw [this]
    exact hall
  · rw [wheelReportedFilenames, wheelReportedFilenames]
    exact sortNames_perm_invariant _ _ (hperm.map _)
  · exact sortNames_sorted _
  · intro res h
    rw [pip_wheel_materialize] at h
    cases hf : l.foldlM (buildStep wd) ⟨d, []⟩ with
    | error er => rw [hf] at h; cases h
    | ok st =>
      rw [hf] at h
      cases h
      show (sortNames st.builtWheels).map builtWheelLine = _
      rw [wheelLoop_built wd l ⟨d, []⟩ st hf, List.nil_append, wheelReportedFilenames]

/-- Witness for C6: two artifacts listed in either completion order report
the same filename list. -/
theorem reporting_sorted_deterministic_witness :
    downloadReportedFilenames
        [⟨"tomli-2.0.1-py3-none-any.whl", "pb", []⟩,
         ⟨"iniconfig-2.0.0-py3-none-any.whl", "pa", []⟩]
      = downloadReportedFilenames
        [⟨"iniconfig-2.0.0-py3-none-any.whl", "pa", []⟩,
         ⟨"tomli-2.0.1-py3-none-any.whl", "pb", []⟩] :=
  (reporting_sorted_deterministic
    [⟨"tomli-2.0.1-py3-none-any.whl", "pb", []⟩,
     ⟨"iniconfig-2.0.0-py3-none-any.whl", "pa", []⟩]
    [⟨"iniconfig-2.0.0-py3-none-any.whl", "pa", []⟩,
     ⟨"tomli-2.0.1-py3-none-any.whl", "pb", []⟩]
    (List.Perm.swap _ _ _) [] "0.01s" "wheels").1

/-! ### C7: wording of the reported lines -/

theorem forall2_exists_left {α β : Type} {R : α → β → Prop} :
    ∀ {l1 : List α} {l2 : List β}, List.Forall₂ R l1 l2 → ∀ b ∈ l2, ∃ a ∈ l1, R a b := by
  intro l1 l2 h
  induction h with
  | nil => intro b hb; cases hb
  | cons hr ht ih =>
    intro b hb
    rcases List.mem_cons.mp hb with rfl | hb
    · exact ⟨_, List.mem_cons_self _ _, hr⟩
    · obtain ⟨a, ha, hra⟩ := ih b hb
      exact ⟨a, List.mem_cons_of_mem _ ha, hra⟩

theorem append_fold3 (A p q r t : String) (h : p ++ (q ++ r) = t) :
    ((A ++ p) ++ q) ++ r = A ++ t := by
  rw [String.append_assoc, String.append_assoc, h]

/-- C7 counterexample: the per-item line the code writes for a downloaded
file carries one leading space, so it is not the string
`Downloaded <filename>` the claim states. -/
theorem reported_lines_wording_counterexample :
    (pip_download_materialize []
        [⟨"iniconfig-2.0.0-py3-none-any.whl", "p", []⟩] "0.01s").lines
      = [" Downloaded iniconfig-2.0.0-py3-none-any.whl",
         "Downloaded 1 package in 0.01s"] ∧
    " Downloaded iniconfig-2.0.0-py3-none-any.whl"
      ≠ "Downloaded iniconfig-2.0.0-py3-none-any.whl" := by
  constructor
  · simp [pip_download_materialize, sortPrepared, downloadStep, DestDir.hasFile,
      DestDir.write, downloadItemLine, downloadSummaryLine, zip_directory]
    decide
  · decide

/-- C7 (amended): the reported lines match the stable wording with
count-dependent pluralization — the download summary is
`Downloaded <count> package(s) in <time>` (singular exactly when the count
is 1) and is the final line; the build summary is
`Successfully built <count> wheel(s) in <time>` and heads the build report;
each per-item download line is ` Downloaded <filename>` or
` Skipping <filename> (already exists)` (one leading space), and each built
wheel produces a ` - <filename>` line. -/
theorem reported_lines_wording
    (d : DestDir) (l : List PreparedArtifact) (e wd : String) :
    ((pip_download_materialize d l e).lines.getLast?
        = some (downloadSummaryLine (pip_download_materialize d l e).downloadedCount e)) ∧
    downloadSummaryLine 1 e = "Downloaded 1 package in " ++ e ∧
    (∀ n, n ≠ 1 → downloadSummaryLine n e
        = ("Downloaded " ++ toString n) ++ " packages in " ++ e) ∧
    (∀ line ∈ (pip_download_materialize d l e).lines.dropLast,
      ∃ w ∈ sortPrepared l, line = " Downloaded " ++ w.filename ∨
        line = " Skipping " ++ w.filename ++ " (already exists)") ∧
    wheelSummaryLine 1 e = "Successfully built 1 wheel in " ++ e ∧
    (∀ n, n ≠ 1 → wheelSummaryLine n e
        = ("Successfully built " ++ toString n) ++ " wheels in " ++ e) ∧
    (∀ res, pip_wheel_materialize wd d l e = Except.ok res →
      res.2.head? = some (wheelSummaryLine res.2.tail.length e) ∧
      ∀ line ∈ res.2.tail, ∃ w ∈ l, line = " - " ++ w.filename) := by
  refine ⟨?_, ?_, ?_, ?_, ?_, ?_, ?_⟩
  · show (((sortPrepared l).foldl downloadStep ⟨d, [], 0⟩).lines ++ _).getLast? = _
    rw [List.getLast?_concat]
    rfl
  · exact congrArg (fun s => s ++ e)
      (by decide :
        "Downloaded " ++ toString 1 ++ " package" ++ (if 1 = 1 then "" else "s") ++ " in "
          = "Downloaded 1 package in ")
  · intro n hn
    rw [downloadSummaryLine, if_neg hn]
    rw [append_fold3 ("Downloaded " ++ toString n) " package" "s" " in "
      " packages in " (by decide)]
  · intro line hline
    obtain ⟨tail, hlines, hall⟩ := downloadLoop_lines_shape (sortPrepared l) ⟨d, [], 0⟩
    have hdl : (pip_download_materialize d l e).lines.dropLast = tail := by
      show (((sortPrepared l).foldl downloadStep ⟨d, [], 0⟩).lines ++ _).dropLast = tail
      rw [hlines, List.nil_append, List.dropLast_concat]
    rw [hdl] at hline
    obtain ⟨w, hw, hr⟩ := forall2_exists_left hall line hline
    exact ⟨w, hw, hr⟩
  · exact congrArg (fun s => s ++ e)
      (by decide :
        "Successfully built " ++ toString 1 ++ " wheel" ++ (if 1 = 1 then "" else "s") ++ " in "
          = "Successfully built 1 wheel in ")
  · intro n hn
    rw [wheelSummaryLine, if_neg hn]
    rw [append_fold3 ("Successfully built " ++ toString n) " wheel" "s" " in "
      " wheels in " (by decide)]
  · intro res h
    rw [pip_wheel_materialize] at h
    cases hf : l.foldlM (buildStep wd) ⟨d, []⟩ with
    | error er => rw [hf] at h; cases h
    | ok st =>
      rw [hf] at h
      cases h
      constructor
      · show some (wheelSummaryLine (sortNames st.builtWheels).length e) = _
        rw [List.tail_cons, List.length_map]
      · intro line hline
        rw [List.tail_cons] at hline
        obtain ⟨nm, hnm, rfl⟩ := List.mem_map.mp hline
        rw [sortNames, List.mem_mergeSort,
          wheelLoop_built wd l ⟨d, []⟩ st hf, List.nil_append] at hnm
        obtain ⟨w, hw, rfl⟩ := List.mem_map.mp hnm
        exact ⟨w, hw, rfl⟩

/-- Witness for C7: the plural summary wording at count 0. -/
theorem reported_lines_wording_witness :
    downloadSummaryLine 0 "0.05s" = ("Downloaded " ++ toString 0) ++ " packages in " ++ "0.05s" :=
  ((reported_lines_wording [] [] "0.05s" "wheels").2.2.1) 0 (by decide)

/-! ### C1: download-mode write rule -/

/-- C1 counterexample: a prepared artifact that is already a single file
(a lone root file with contents `[7]`) is not copied verbatim: the code
writes a (here empty) ZIP archive where the claim demands the raw bytes. -/
theorem download_copy_verbatim_counterexample :
    (downloadStep ⟨[], [], 0⟩ ⟨"f.whl", "p", [Except.ok ⟨[], some [7]⟩]⟩).dest
        = [("f.whl", DestContent.zipArchive [])] ∧
    downloadWriteSpec ⟨"f.whl", "p", [Except.ok ⟨[], some [7]⟩]⟩
        = DestContent.rawBytes [7] ∧
    DestContent.zipArchive [] ≠ DestContent.rawBytes [7] := by
  refine ⟨by decide, rfl, by decide⟩

/-- C1 (amended): in download mode every prepared artifact that is not
skipped is unconditionally passed to the ZIP packer — an unpacked directory
is packed into a ZIP container before being written to the destination, and
an artifact that is already a single file is not copied verbatim but
likewise zipped — and the outcome recorded is Downloaded. -/
theorem download_materialization_always_zips
    (st : DownloadLoopState) (w : PreparedArtifact)
    (h : st.dest.hasFile w.filename = false) :
    (downloadStep st w).dest.lookup w.filename
        = some (DestContent.zipArchive (zip_directory w.walk)) ∧
    (downloadStep st w).lines = st.lines ++ [downloadItemLine w.filename] ∧
    (downloadStep st w).downloadedCount = st.downloadedCount + 1 ∧
    ((∀ c, w.walk ≠ [Except.ok ⟨[], some c⟩]) →
      downloadWriteSpec w = DestContent.zipArchive (zip_directory w.walk)) := by
  have hstep : downloadStep st w =
      { dest := st.dest.write w.filename (.zipArchive (zip_directory w.walk)),
        lines := st.lines ++ [downloadItemLine w.filename],
        downloadedCount := st.downloadedCount + 1 } := by
    rw [downloadStep, if_neg (by simp [h])]
  refine ⟨?_, by rw [hstep], by rw [hstep], ?_⟩
  · rw [hstep]
    exact DestDir.lookup_write_self _ _ _
  · intro h2
    rw [downloadWriteSpec]
    split
    case h_1 c heq => exact absurd heq (h2 c)
    case h_2 => rfl

/-- Witness for C1: a directory artifact is written as its ZIP packing with
a `Downloaded` outcome. -/
theorem download_materialization_always_zips_witness :
    (downloadStep ⟨[], [], 0⟩
        ⟨"a.whl", "cache/a", [Except.ok ⟨[], none⟩, Except.ok ⟨["x"], some [2]⟩]⟩).dest.lookup
        "a.whl"
      = some (DestContent.zipArchive
          (zip_directory [Except.ok ⟨[], none⟩, Except.ok ⟨["x"], some [2]⟩])) :=
  (download_materialization_always_zips ⟨[], [], 0⟩
    ⟨"a.whl", "cache/a", [Except.ok ⟨[], none⟩, Except.ok ⟨["x"], some [2]⟩]⟩ (by decide)).1

/-! ### Zip-packing helper lemmas -/

theorem zip_directory_nil : zip_directory [] = [] := rfl

theorem zip_directory_cons_ok (e : FsEnt) (walk : List WalkItem) :
    zip_directory (Except.ok e :: walk) = (zipDirEntry e).toList ++ zip_directory walk := by
  rw [zip_directory, zip_directory, List.filterMap_cons]
  show List.filterMap zipDirEntry (e :: _) = _
  rw [List.filterMap_cons]
  cases hz : zipDirEntry e <;> simp

theorem zip_directory_cons_error (m : String) (walk : List WalkItem) :
    zip_directory (Except.error m :: walk) = zip_directory walk := by
  rw [zip_directory, zip_directory, List.filterMap_cons]
  rfl

theorem packWheelEntry_eq_zipDirEntry (e : FsEnt) :
    packWheelEntry e = (zipDirEntry e).map (ZipEntry.withPerms (some 0o644)) := by
  rw [packWheelEntry, zipDirEntry]
  by_cases hp : e.path.isEmpty
  · simp [hp]
  · simp only [hp, if_false]
    cases e.data <;> rfl

theorem pack_wheel_perms (walk : List WalkItem) :
    ∀ es, pack_wheel walk = Except.ok es → ∀ z ∈ es, z.unixPerms = some 0o644 := by
  induction walk with
  | nil =>
    intro es h z hz
    cases h
    cases hz
  | cons x rest ih =>
    intro es h z hz
    cases x with
    | error m => cases h
    | ok e =>
      rw [pack_wheel] at h
      cases hp : pack_wheel rest with
      | error m =>
        rw [hp] at h
        cases h
      | ok es2 =>
        rw [hp] at h
        simp only [Except.map] at h
        cases h
        rcases List.mem_append.mp hz with hz | hz
        · have hsome : packWheelEntry e = some z := by
            cases hq : packWheelEntry e with
            | none => rw [hq] at hz; cases hz
            | some z2 =>
              rw [hq] at hz
              rcases List.mem_singleton.mp hz with rfl
              rfl
          rw [packWheelEntry] at hsome
          by_cases hpath : e.path.isEmpty
          · rw [if_pos hpath] at hsome
            cases hsome
          · rw [if_neg hpath] at hsome
            cases hd : e.data with
            | some c =>
              rw [hd] at hsome
              cases hsome
              rfl
            | none =>
              rw [hd] at hsome
              cases hsome
              rfl
        · exact ih es2 hp z hz

theorem pack_wheel_ok_of_no_errors (walk : List WalkItem)
    (hok : ∀ x ∈ walk, x.isOk = true) :
    pack_wheel walk = Except.ok
      ((zip_directory walk).map (ZipEntry.withPerms (some 0o644))) := by
  induction walk with
  | nil => rfl
  | cons x rest ih =>
    cases x with
    | error m =>
      have := hok _ (List.mem_cons_self _ _)
      simp [Except.isOk, Except.toBool] at this
    | ok e =>
      rw [pack_wheel, ih (fun y hy => hok y (List.mem_cons_of_mem _ hy)),
        zip_directory_cons_ok, List.map_append]
      simp only [Except.map]
      rw [packWheelEntry_eq_zipDirEntry]
      cases zipDirEntry e <;> rfl

/-! ### C5: build mode always repacks with 0o644 and overwrites -/

/-- C5: in build mode every prepared artifact is always (re)packed into the
output directory using the same ZIP-packing rule as download mode with Unix
permission bits `0o644` set on packed entries, and an existing file of the
same name in the output directory is overwritten without any skip check
(`buildStep` never consults the destination, and the written content
replaces any previous one). -/
theorem build_mode_repack_overwrite
    (wheelDir : String) (st : WheelLoopState) (w : PreparedArtifact)
    (entries : List ZipEntry) (hok : pack_wheel w.walk = Except.ok entries) :
    buildStep wheelDir st w = Except.ok
      { dest := st.dest.write w.filename (.zipArchive entries),
        builtWheels := st.builtWheels ++ [w.filename] } ∧
    (st.dest.write w.filename (.zipArchive entries)).lookup w.filename
        = some (.zipArchive entries) ∧
    (∀ z ∈ entries, z.unixPerms = some 0o644) ∧
    ((∀ x ∈ w.walk, x.isOk = true) →
      entries = (zip_directory w.walk).map (ZipEntry.withPerms (some 0o644))) := by
  refine ⟨?_, DestDir.lookup_write_self _ _ _, pack_wheel_perms _ _ hok, ?_⟩
  · rw [buildStep, hok]
  · intro hx
    have h2 := pack_wheel_ok_of_no_errors w.walk hx
    rw [hok] at h2
    cases h2
    rfl

/-- Witness for C5: a destination that already holds `f.whl` is
overwritten with the fresh 0o644 packing. -/
theorem build_mode_repack_overwrite_witness :
    buildStep "wheels" ⟨[("f.whl", DestContent.rawBytes [9])], []⟩
        ⟨"f.whl", "cache/f", [Except.ok ⟨[], none⟩, Except.ok ⟨["a"], some [1]⟩]⟩
      = Except.ok
        { dest := DestDir.write [("f.whl", DestContent.rawBytes [9])] "f.whl"
            (.zipArchive [ZipEntry.fileE "a" [1] .deflated (some 0o644)]),
          builtWheels := ["f.whl"] } :=
  (build_mode_repack_overwrite "wheels" ⟨[("f.whl", DestContent.rawBytes [9])], []⟩
    ⟨"f.whl", "cache/f", [Except.ok ⟨[], none⟩, Except.ok ⟨["a"], some [1]⟩]⟩
    [ZipEntry.fileE "a" [1] .deflated (some 0o644)] rfl).1

/-! ### C8: error handling during materialization -/

/-- C8 counterexample: a download-mode materialization whose walk reports
an I/O error (`permission denied`) completes successfully, silently
dropping the error, so packaging failures are not universally fatal. -/
theorem silent_walk_error_counterexample :
    pip_download_materialize []
        [⟨"f.whl", "cache/f",
          [Except.error "permission denied", Except.ok ⟨[], none⟩,
           Except.ok ⟨["a"], some [1]⟩]⟩] "0.01s"
      = { dest := [("f.whl", DestContent.zipArchive
            [ZipEntry.fileE "a" [1] .deflated none])],
          lines := [" Downloaded f.whl", "Downloaded 1 package in 0.01s"],
          downloadedCount := 1 } := by
  simp [pip_download_materialize, sortPrepared, downloadStep, DestDir.hasFile,
    DestDir.write, downloadItemLine, downloadSummaryLine, zip_directory, zipDirEntry,
    renderPath, joinSlash, Except.toOption]
  decide

theorem wheelFold_error_of_mem (wd : String) (wheels : List PreparedArtifact) :
    ∀ st0 : WheelLoopState,
      (∃ u ∈ wheels, ∃ m, pack_wheel u.walk = Except.error m) →
      ∃ cmsg inner, wheels.foldlM (buildStep wd) st0
        = Except.error (PackError.context cmsg inner) := by
  induction wheels with
  | nil =>
    intro st0 h
    obtain ⟨u, hu, _⟩ := h
    cases hu
  | cons a l ih =>
    intro st0 h
    rw [List.foldlM_cons]
    cases hb : buildStep wd st0 a with
    | error er =>
      have her : ∃ cmsg inner, er = PackError.context cmsg inner := by
        rw [buildStep] at hb
        cases hp : pack_wheel a.walk with
        | error m =>
          rw [hp] at hb
          cases hb
          exact ⟨_, _, rfl⟩
        | ok es =>
          rw [hp] at hb
          cases hb
      obtain ⟨cmsg, inner, rfl⟩ := her
      exact ⟨cmsg, inner, rfl⟩
    | ok st1 =>
      obtain ⟨u, hu, m, hm⟩ := h
      rcases List.mem_cons.mp hu with rfl | hu
      · rw [buildStep, hm] at hb
        cases hb
      · exact ih st1 ⟨u, hu, m, hm⟩

/-- C8 (amended): in build mode, a directory-walk failure while packing a
wheel is fatal to the run and the surfaced error is wrapped with the
offending source and destination paths; in download mode, directory-walk
entry errors are silently skipped by the packer while other failures remain
fatal. -/
theorem packaging_error_handling
    (wd : String) (st : WheelLoopState) (w : PreparedArtifact) (msg : String)
    (wheels : List PreparedArtifact) (d0 : DestDir) (e : String)
    (walk : List WalkItem) (m2 : String) :
    (pack_wheel w.walk = Except.error msg →
      buildStep wd st w = Except.error
        (.context (wheelContextMsg w.path (destPathOf wd w.filename)) (.walk msg)) ∧
      ∃ pre, wheelContextMsg w.path (destPathOf wd w.filename)
        = pre ++ destPathOf wd w.filename) ∧
    ((∃ u ∈ wheels, ∃ m, pack_wheel u.walk = Except.error m) →
      ∃ cmsg inner, pip_wheel_materialize wd d0 wheels e
        = Except.error (PackError.context cmsg inner)) ∧
    zip_directory (Except.error m2 :: walk) = zip_directory walk := by
  refine ⟨?_, ?_, zip_directory_cons_error m2 walk⟩
  · intro h
    refine ⟨by rw [buildStep, h], ⟨"Failed to pack wheel from " ++ w.path ++ " to ", rfl⟩⟩
  · intro h
    obtain ⟨cmsg, inner, hfold⟩ := wheelFold_error_of_mem wd wheels ⟨d0, []⟩ h
    refine ⟨cmsg, inner, ?_⟩
    rw [pip_wheel_materialize, hfold]
    rfl

/-- Witness for C8: a concrete walk error in build mode surfaces as the
wrapped fatal error. -/
theorem packaging_error_handling_witness :
    buildStep "wheels" ⟨[], []⟩ ⟨"f.whl", "cache/f", [Except.error "boom"]⟩
      = Except.error
        (.context (wheelContextMsg "cache/f" (destPathOf "wheels" "f.whl"))
          (.walk "boom")) :=
  ((packaging_error_handling "wheels" ⟨[], []⟩ ⟨"f.whl", "cache/f", [Except.error "boom"]⟩
    "boom" [] [] "t" [] "x").1 rfl).1

/-! ### C4: ZIP packing rule and round-trip -/

theorem splitSlash_no_slash (c : List Char) (h : '/' ∉ c) : splitSlash c = [c] := by
  induction c with
  | nil => rfl
  | cons a c ih =>
    have ha : a ≠ '/' := fun e => h (e ▸ List.mem_cons_self a c)
    have hc : '/' ∉ c := fun hm => h (List.mem_cons_of_mem a hm)
    simp [splitSlash, ha, ih hc]

theorem splitSlash_append (c rest : List Char) (h : '/' ∉ c) :
    splitSlash (c ++ '/' :: rest) = c :: splitSlash rest := by
  induction c with
  | nil => simp [splitSlash]
  | cons a c ih =>
    have ha : a ≠ '/' := fun e => h (e ▸ List.mem_cons_self a c)
    have hc : '/' ∉ c := fun hm => h (List.mem_cons_of_mem a hm)
    simp [splitSlash, ha, ih hc]

theorem splitSlash_joinSlash (parts : List (List Char)) (hne : parts ≠ [])
    (h : ∀ c ∈ parts, '/' ∉ c) : splitSlash (joinSlash parts) = parts := by
  induction parts with
  | nil => cases hne rfl
  | cons c parts ih =>
    cases parts with
    | nil =>
      show splitSlash (joinSlash [c]) = [c]
      rw [joinSlash]
      exact splitSlash_no_slash c (h c (List.mem_cons_self c []))
    | cons c2 parts2 =>
      show splitSlash (joinSlash (c :: c2 :: parts2)) = _
      rw [joinSlash, splitSlash_append _ _ (h c (List.mem_cons_self _ _)),
        ih (List.cons_ne_nil c2 parts2) (fun x hx => h x (List.mem_cons_of_mem _ hx))]
      exact List.cons_ne_nil c2 parts2

theorem validComponentB_iff (s : String) :
    validComponentB s = true ↔ s ≠ "" ∧ '/' ∉ s.data := by
  simp [validComponentB]

theorem parse_render (p : List String) (hne : p ≠ [])
    (h : ∀ s ∈ p, validComponentB s = true) :
    (splitSlash (joinSlash (p.map String.data))).map (fun l => (⟨l⟩ : String)) = p := by
  rw [splitSlash_joinSlash]
  · calc (p.map String.data).map (fun l => (⟨l⟩ : String))
        = p.map (fun s => (⟨s.data⟩ : String)) := by rw [List.map_map]; rfl
    _ = p := by
        have : (fun s : String => (⟨s.data⟩ : String)) = id := funext fun s => rfl
        rw [this, List.map_id]
  · intro e
    exact hne (by simpa using e)
  · intro c hc
    obtain ⟨s, hs, rfl⟩ := List.mem_map.mp hc
    exact ((validComponentB_iff s).mp (h s hs)).2

theorem joinSlash_head (c : List Char) (cs : List (List Char)) (hc : c ≠ []) :
    ∃ x xs, joinSlash (c :: cs) = x :: xs ∧ x ∈ c := by
  cases cs with
  | nil =>
    cases c with
    | nil => cases hc rfl
    | cons a c2 =>
      exact ⟨a, c2, by rw [joinSlash], List.mem_cons_self a c2⟩
  | cons c2 cs2 =>
    cases c with
    | nil => cases hc rfl
    | cons a c3 =>
      refine ⟨a, c3 ++ '/' :: joinSlash (c2 :: cs2), ?_, List.mem_cons_self a c3⟩
      rw [joinSlash, List.cons_append]
      exact List.cons_ne_nil c2 cs2

theorem renderPath_head (p : List String) (hne : p ≠ [])
    (h : ∀ s ∈ p, validComponentB s = true) :
    ∃ x xs, (renderPath p).data = x :: xs ∧ x ≠ '/' := by
  cases p with
  | nil => cases hne rfl
  | cons s ps =>
    have hs := (validComponentB_iff s).mp (h s (List.mem_cons_self s ps))
    have hsd : s.data ≠ [] := fun e => hs.1 (by
      cases s with
      | mk d => cases e; rfl)
    obtain ⟨x, xs, hx, hmem⟩ := joinSlash_head s.data (ps.map String.data) hsd
    refine ⟨x, xs, ?_, fun e => hs.2 (e ▸ hmem)⟩
    show joinSlash ((s :: ps).map String.data) = x :: xs
    rw [List.map_cons]
    exact hx

theorem zipDirEntry_props (e : FsEnt) (hv : e.validB = true) :
    ∀ z, zipDirEntry e = some z →
      z.name ≠ "" ∧ z.name ≠ "/" ∧ z.method = CompressionMethod.deflated ∧
      ∀ n m pm, z = ZipEntry.dirE n m pm → ∃ b, n = b ++ "/" := by
  intro z hz
  rw [zipDirEntry] at hz
  by_cases hp : e.path.isEmpty
  · rw [if_pos hp] at hz
    cases hz
  · rw [if_neg hp] at hz
    have hpne : e.path ≠ [] := fun hnil => hp (by rw [hnil]; rfl)
    have hcomp : ∀ s ∈ e.path, validComponentB s = true := by
      have h2 := hv
      rw [FsEnt.validB, List.all_eq_true] at h2
      exact h2
    obtain ⟨x, xs, hxd, hxne⟩ := renderPath_head e.path hpne hcomp
    cases hd : e.data with
    | none =>
      rw [hd] at hz
      cases hz
      refine ⟨?_, ?_, rfl, fun n m pm heq => ?_⟩
      · intro heq
        have h3 := congrArg String.data heq
        simp only [ZipEntry.name] at h3
        rw [show (renderPath e.path ++ "/").data = (renderPath e.path).data ++ ['/'] from rfl,
          hxd] at h3
        simp at h3
      · intro heq
        have h3 := congrArg String.data heq
        simp only [ZipEntry.name] at h3
        rw [show (renderPath e.path ++ "/").data = (renderPath e.path).data ++ ['/'] from rfl,
          hxd, List.cons_append] at h3
        injection h3 with h4 h5
        exact hxne h4
      · cases heq
        exact ⟨renderPath e.path, rfl⟩
    | some c =>
      rw [hd] at hz
      cases hz
      refine ⟨?_, ?_, rfl, fun n m pm heq => by cases heq⟩
      · intro heq
        have h3 := congrArg String.data heq
        simp only [ZipEntry.name] at h3
        rw [show (renderPath e.path).data = (renderPath e.path).data from rfl, hxd] at h3
        simp at h3
      · intro heq
        have h3 := congrArg String.data heq
        simp only [ZipEntry.name] at h3
        rw [hxd] at h3
        injection h3 with h4 h5
        exact hxne h4

theorem zipDirEntry_unpack (e : FsEnt) (hv : e.validB = true) :
    ∀ z, zipDirEntry e = some z → zipDirEntry (unpackEntry z) = some z := by
  intro z hz
  rw [zipDirEntry] at hz
  by_cases hp : e.path.isEmpty
  · rw [if_pos hp] at hz
    cases hz
  · rw [if_neg hp] at hz
    have hpne : e.path ≠ [] := fun hnil => hp (by rw [hnil]; rfl)
    have hcomp : ∀ s ∈ e.path, validComponentB s = true := by
      have h2 := hv
      rw [FsEnt.validB, List.all_eq_true] at h2
      exact h2
    have hparse : (splitSlash (renderPath e.path).data).map (fun l => (⟨l⟩ : String))
        = e.path := parse_render e.path hpne hcomp
    cases hd : e.data with
    | none =>
      rw [hd] at hz
      cases hz
      rw [unpackEntry]
      have hdl : (renderPath e.path ++ "/").data.dropLast = (renderPath e.path).data := by
        show ((renderPath e.path).data ++ ['/']).dropLast = _
        exact List.dropLast_concat
      rw [hdl, hparse]
      show (if e.path.isEmpty then none else _) = _
      rw [if_neg hp]
    | some c =>
      rw [hd] at hz
      cases hz
      rw [unpackEntry, hparse]
      show (if e.path.isEmpty then none else _) = _
      rw [if_neg hp]

theorem mem_zip_directory (walk : List WalkItem) (hv : validWalkB walk = true)
    {z : ZipEntry} (hz : z ∈ zip_directory walk) :
    ∃ e : FsEnt, e.validB = true ∧ zipDirEntry e = some z := by
  rw [zip_directory] at hz
  obtain ⟨e, he, hze⟩ := List.mem_filterMap.mp hz
  obtain ⟨x, hx, hxe⟩ := List.mem_filterMap.mp he
  have hxv : WalkItem.validB x = true := by
    rw [validWalkB, List.all_eq_true] at hv
    exact hv x hx
  cases x with
  | error m => cases hxe
  | ok e2 =>
    cases hxe
    exact ⟨_, hxv, hze⟩

theorem zip_directory_map_unpack (es : List ZipEntry)
    (h : ∀ z ∈ es, zipDirEntry (unpackEntry z) = some z) :
    zip_directory (es.map fun z => Except.ok (unpackEntry z)) = es := by
  induction es with
  | nil => rfl
  | cons z es ih =>
    rw [List.map_cons, zip_directory_cons_ok, h z (List.mem_cons_self z es),
      ih (fun y hy => h y (List.mem_cons_of_mem z hy))]
    rfl

theorem zip_directory_roundtrip (walk : List WalkItem) (hv : validWalkB walk = true) :
    zip_directory (unpackZip (zip_directory walk)) = zip_directory walk := by
  rw [unpackZip, zip_directory_cons_ok]
  show (zipDirEntry ⟨[], none⟩).toList ++ _ = _
  rw [show zipDirEntry ⟨[], none⟩ = none from rfl]
  rw [show (none : Option ZipEntry).toList = [] from rfl, List.nil_append]
  apply zip_directory_map_unpack
  intro z hz
  obtain ⟨e, hev, hze⟩ := mem_zip_directory walk hv hz
  exact zipDirEntry_unpack e hev z hze

theorem validWalk_all_ok (walk : List WalkItem) (hv : validWalkB walk = true) :
    ∀ x ∈ walk, x.isOk = true := by
  intro x hx
  rw [validWalkB, List.all_eq_true] at hv
  have h2 := hv x hx
  cases x with
  | error m => simp [WalkItem.validB] at h2
  | ok e => rfl

theorem unpackZip_all_ok (es : List ZipEntry) : ∀ x ∈ unpackZip es, x.isOk = true := by
  intro x hx
  rw [unpackZip] at hx
  rcases List.mem_cons.mp hx with rfl | hx
  · rfl
  · obtain ⟨z, hz, rfl⟩ := List.mem_map.mp hx
    rfl

theorem unpackEntry_withPerms (z : ZipEntry) (p : Option Nat) :
    unpackEntry (z.withPerms p) = unpackEntry z := by
  cases z <;> rfl

theorem pack_wheel_roundtrip (walk : List WalkItem) (hv : validWalkB walk = true)
    (es : List ZipEntry) (hok : pack_wheel walk = Except.ok es) :
    pack_wheel (unpackZip es) = Except.ok es := by
  have hzd := pack_wheel_ok_of_no_errors walk (validWalk_all_ok walk hv)
  rw [hok] at hzd
  cases hzd
  rw [pack_wheel_ok_of_no_errors (unpackZip _) (unpackZip_all_ok _)]
  have hzip : unpackZip ((zip_directory walk).map (ZipEntry.withPerms (some 0o644)))
      = unpackZip (zip_directory walk) := by
    rw [unpackZip, unpackZip, List.map_map]
    congr 1
    apply List.map_congr_left
    intro z hz
    show Except.ok (unpackEntry (z.withPerms _)) = Except.ok (unpackEntry z)
    rw [unpackEntry_withPerms]
  rw [hzip, zip_directory_roundtrip walk hv]

/-- C4: every directory packed by the materializer, in either mode, yields
a ZIP that omits the root directory entry itself, DEFLATE-compresses file
entries, and writes directory entries with a trailing path separator;
unpacking such a ZIP and re-packing it with the same rule yields
byte-identical entry names and the same set of directory/file entries, with
the root entry always absent. -/
theorem zip_pack_roundtrip (walk : List WalkItem) (hv : validWalkB walk = true) :
    (∀ z ∈ zip_directory walk,
      z.name ≠ "" ∧ z.name ≠ "/" ∧ z.method = CompressionMethod.deflated ∧
      ∀ n m pm, z = ZipEntry.dirE n m pm → ∃ b, n = b ++ "/") ∧
    zip_directory (unpackZip (zip_directory walk)) = zip_directory walk ∧
    ∀ es, pack_wheel walk = Except.ok es →
      pack_wheel (unpackZip es) = Except.ok es ∧
      ∀ z ∈ es, z.name ≠ "" ∧ z.name ≠ "/" ∧ z.method = CompressionMethod.deflated ∧
        ∀ n m pm, z = ZipEntry.dirE n m pm → ∃ b, n = b ++ "/" := by
  refine ⟨?_, zip_directory_roundtrip walk hv, ?_⟩
  · intro z hz
    obtain ⟨e, hev, hze⟩ := mem_zip_directory walk hv hz
    exact zipDirEntry_props e hev z hze
  · intro es hok
    refine ⟨pack_wheel_roundtrip walk hv es hok, ?_⟩
    intro z hz
    have hzd := pack_wheel_ok_of_no_errors walk (validWalk_all_ok walk hv)
    rw [hok] at hzd
    cases hzd
    obtain ⟨z0, hz0, rfl⟩ := List.mem_map.mp hz
    obtain ⟨e, hev, hze⟩ := mem_zip_directory walk hv hz0
    obtain ⟨h1, h2, h3, h4⟩ := zipDirEntry_props e hev z0 hze
    cases z0 with
    | dirE n m pm =>
      refine ⟨h1, h2, h3, fun n2 m2 pm2 heq => ?_⟩
      cases heq
      exact h4 n m pm rfl
    | fileE n c m pm =>
      exact ⟨h1, h2, h3, fun n2 m2 pm2 heq => by cases heq⟩

/-- Witness for C4: a directory holding a subdirectory with one file and an
empty subdirectory round-trips. -/
theorem zip_pack_roundtrip_witness :
    validWalkB
        [Except.ok ⟨[], none⟩, Except.ok ⟨["d"], none⟩,
         Except.ok ⟨["d", "f"], some [1, 2]⟩, Except.ok ⟨["e"], none⟩] = true ∧
    zip_directory (unpackZip (zip_directory
        [Except.ok ⟨[], none⟩, Except.ok ⟨["d"], none⟩,
         Except.ok ⟨["d", "f"], some [1, 2]⟩, Except.ok ⟨["e"], none⟩]))
      = zip_directory
        [Except.ok ⟨[], none⟩, Except.ok ⟨["d"], none⟩,
         Except.ok ⟨["d", "f"], some [1, 2]⟩, Except.ok ⟨["e"], none⟩] :=
  ⟨by decide,
   (zip_pack_roundtrip
     [Except.ok ⟨[], none⟩, Except.ok ⟨["d"], none⟩,
      Except.ok ⟨["d", "f"], some [1, 2]⟩, Except.ok ⟨["e"], none⟩] (by decide)).2.1⟩

end UvPip
